import Mathlib

/-!
Shallow embedding of the smart_complaint_system AI engine
(`src/lib/ai-engine.ts`) and SLA helpers (`src/lib/utils.ts`).

Strings are modelled as `List Char`; JavaScript `String.prototype.includes`
becomes a substring test on character lists; JavaScript numbers appearing in
the confidence computation are modelled exactly as rationals (`ℚ`);
timestamps are epoch milliseconds modelled as `Int`.
-/

namespace SmartComplaint

/-- Characters of a Lean string literal, used to transliterate the
TypeScript string literals. -/
def str (s : String) : List Char := s.data

def strs (l : List String) : List (List Char) := l.map str

/-- The ASCII whitespace characters matched by the JavaScript regex class
`\s` (we restrict the model to ASCII text). -/
def isSpaceJS (c : Char) : Bool :=
  c = ' ' || c = '\t' || c = '\n' || c = '\x0b' || c = '\x0c' || c = '\r'

/-- Characters kept by `replace(/[^a-z0-9\s-]/g, ' ')`: lowercase letters,
digits, whitespace and the hyphen. -/
def keepChar (c : Char) : Bool :=
  ('a' ≤ c && c ≤ 'z') || ('0' ≤ c && c ≤ '9') || isSpaceJS c || c = '-'

/-- One step of `replace(/[^a-z0-9\s-]/g, ' ')`. -/
def sanitizeChar (c : Char) : Char := if keepChar c then c else ' '

/-- `text.toLowerCase()` (ASCII case folding). -/
def toLowerStr (l : List Char) : List Char := l.map Char.toLower

/-- `String.prototype.trim`: drop leading and trailing whitespace. -/
def trimJS (l : List Char) : List Char :=
  ((l.dropWhile isSpaceJS).reverse.dropWhile isSpaceJS).reverse

/-- `preprocessText` from ai-engine.ts:
`text.toLowerCase().replace(/[^a-z0-9\s-]/g, ' ').trim()`. -/
def preprocessText (l : List Char) : List Char :=
  trimJS ((l.map Char.toLower).map sanitizeChar)

/-- `haystack.includes(needle)`: substring test on character lists. -/
def containsSub (needle : List Char) : List Char → Bool
  | [] => needle.isEmpty
  | c :: rest => needle.isPrefixOf (c :: rest) || containsSub needle rest

-- ─── Data model ───────────────────────────────────────────────────────────────

/-- `ComplaintCategory` from types/index.ts. -/
inductive Category where
  | water | electrical | internet | infrastructure
  | sanitation | security | maintenance | other
  deriving DecidableEq, Repr

/-- `Priority` from types/index.ts. -/
inductive Priority where
  | urgent | high | normal | low
  deriving DecidableEq, Repr

/-- `CATEGORY_KEYWORDS` from ai-engine.ts, per category. -/
def CATEGORY_KEYWORDS : Category → List (List Char)
  | .water => strs ["water", "pipe", "leak", "flood", "drain", "sewage", "tap",
      "supply", "plumbing", "overflow", "blockage", "contamination",
      "dirty water", "no water", "water cut", "burst pipe", "moisture", "damp"]
  | .electrical => strs ["electricity", "electric", "power", "light", "bulb",
      "wiring", "socket", "switch", "fuse", "transformer", "outage", "blackout",
      "short circuit", "voltage", "generator", "meter", "sparks", "shock",
      "no power"]
  | .internet => strs ["internet", "wifi", "network", "connection", "broadband",
      "router", "signal", "slow internet", "disconnected", "bandwidth", "cable",
      "fiber", "lan", "modem", "connectivity", "online", "offline"]
  | .infrastructure => strs ["road", "pothole", "bridge", "building", "wall",
      "ceiling", "floor", "crack", "construction", "pavement", "sidewalk",
      "parking", "gate", "fence", "roof", "structure", "foundation",
      "elevator", "lift"]
  | .sanitation => strs ["garbage", "waste", "trash", "dustbin", "cleaning",
      "hygiene", "toilet", "bathroom", "restroom", "smell", "odor", "pest",
      "rat", "cockroach", "mosquito", "dirty", "filth", "sweep", "litter"]
  | .security => strs ["security", "theft", "robbery", "vandalism", "cctv",
      "camera", "guard", "safety", "danger", "threat", "suspicious",
      "break-in", "trespassing", "harassment", "violence", "crime", "police",
      "emergency"]
  | .maintenance => strs ["maintenance", "repair", "broken", "damaged", "worn",
      "old", "replace", "fix", "service", "equipment", "machine", "appliance",
      "furniture", "door", "window", "lock", "hinge", "paint", "renovation"]
  | .other => []

/-- The keys of `CATEGORY_KEYWORDS` in declaration order
(JavaScript object-literal key order). -/
def categoriesAll : List Category :=
  [.water, .electrical, .internet, .infrastructure, .sanitation, .security,
   .maintenance, .other]

/-- `URGENT_KEYWORDS` from ai-engine.ts. -/
def URGENT_KEYWORDS : List (List Char) :=
  strs ["urgent", "emergency", "critical", "immediately", "asap", "dangerous",
    "hazardous", "life-threatening", "fire", "flood", "explosion", "gas leak",
    "electric shock", "accident", "injury", "blood", "collapse", "fallen"]

/-- `HIGH_KEYWORDS` from ai-engine.ts. -/
def HIGH_KEYWORDS : List (List Char) :=
  strs ["broken", "not working", "completely", "totally", "severe", "major",
    "serious", "significant", "important", "affecting many", "multiple",
    "days", "week", "unbearable", "intolerable", "health risk"]

/-- `LOW_KEYWORDS` from ai-engine.ts. -/
def LOW_KEYWORDS : List (List Char) :=
  strs ["minor", "small", "slight", "little", "cosmetic", "aesthetic",
    "suggestion", "improvement", "enhancement", "when possible", "not urgent",
    "low priority"]

-- ─── Priority determination ───────────────────────────────────────────────────

/-- `kws.any (kw => processed.includes(kw))`: the loop
`for kw of kws { if (processed.includes(kw)) return ... }` fires
exactly when this is true. -/
def anyKeyword (kws : List (List Char)) (processed : List Char) : Bool :=
  kws.any fun kw => containsSub kw processed

/-- The `categoryPriorities` default table in `determinePriority`;
`other` is absent from the table, so `?? 'normal'` applies. -/
def categoryDefault : Category → Priority
  | .electrical => .high
  | .water => .high
  | .security => .high
  | .infrastructure => .normal
  | .internet => .normal
  | .sanitation => .normal
  | .maintenance => .low
  | .other => .normal

/-- `determinePriority` from ai-engine.ts. -/
def determinePriority (text : List Char) (cat : Category) : Priority :=
  let processed := preprocessText text
  if anyKeyword URGENT_KEYWORDS processed then .urgent
  else if anyKeyword HIGH_KEYWORDS processed then .high
  else if anyKeyword LOW_KEYWORDS processed then .low
  else categoryDefault cat

example : determinePriority (str "URGENT: no water!") .maintenance = .urgent := by decide
example : determinePriority (str "it is broken") .sanitation = .high := by decide
example : determinePriority (str "hello") .water = .high := by decide
example : determinePriority (str "hello") .other = .normal := by decide
example : determinePriority (str "a minor thing") .water = .low := by decide

-- ─── Category classification ──────────────────────────────────────────────────

/-- `scoreCategory` from ai-engine.ts: 2 points for a keyword spanning
several words (`kw.split(' ').length > 1`, i.e. the keyword contains a
space), 1 point otherwise, summed over the matched keywords. -/
def scoreCategory (text : List Char) (cat : Category) : Nat :=
  let processed := preprocessText text
  ((CATEGORY_KEYWORDS cat).map fun kw =>
    if containsSub kw processed then (if kw.contains ' ' then 2 else 1) else 0).sum

/-- The categories scored by `classifyCategory`: all keys of
`CATEGORY_KEYWORDS` except `other` (the loop `continue`s on it). -/
def scoringCategories : List Category :=
  categoriesAll.filter fun c => !(c == Category.other)

/-- The `scores` record built by `classifyCategory`, as an association list
in key-insertion order. -/
def scoresList (text : List Char) : List (Category × Nat) :=
  scoringCategories.map fun c => (c, scoreCategory text c)

/-- The `totalScore` accumulator of `classifyCategory`. -/
def totalScore (text : List Char) : Nat :=
  ((scoresList text).map Prod.snd).sum

/-- `Object.entries(scores).sort(([,a],[,b]) => b - a)[0]`: JavaScript's
sort is stable and the entries are in key-insertion order, so the head of
the sorted list is the first entry attaining the maximal score. -/
def firstMax (e : Category × Nat) : List (Category × Nat) → Category × Nat
  | [] => e
  | x :: rest => firstMax (if x.2 > e.2 then x else e) rest

/-- `Math.round` on an exact rational: round half toward positive
infinity. -/
def roundJS (q : ℚ) : Int := Int.floor (q + 1/2)

/-- `Math.round(q * 100) / 100`: round to two decimal places. -/
def round2 (q : ℚ) : ℚ := (roundJS (q * 100) : ℚ) / 100

/-- `classifyCategory` from ai-engine.ts. The `[]` branch of the match is
unreachable (`scoresList` always has the seven scoring categories). -/
def classifyCategory (text : List Char) : Category × ℚ :=
  if totalScore text = 0 then (Category.other, 3/10)
  else
    match scoresList text with
    | [] => (Category.other, 3/10)
    | e :: rest =>
      ((firstMax e rest).1,
        round2 (min (((firstMax e rest).2 : ℚ)
          / max ((totalScore text : ℚ) * (4/5)) 1) 1))

example : (classifyCategory (str "water leak")).1 = Category.water := by decide
example : (classifyCategory (str "xyz")).1 = Category.other := by decide
example : classifyCategory (str "xyz") = (Category.other, 3/10) := by
  have h : totalScore (str "xyz") = 0 := by decide
  simp [classifyCategory, h]
example : classifyCategory (str "water leak") = (Category.water, 1) := by
  have h : totalScore (str "water leak") = 2 := by decide
  have hs : scoresList (str "water leak") =
      [(Category.water, 2), (Category.electrical, 0), (Category.internet, 0),
       (Category.infrastructure, 0), (Category.sanitation, 0),
       (Category.security, 0), (Category.maintenance, 0)] := by decide
  rw [classifyCategory, if_neg (by simp [h]), hs]
  simp [firstMax, round2, roundJS, h]
  norm_num

-- ─── Keyword extraction ───────────────────────────────────────────────────────

/-- The scan order of `extractKeywords`: every category's keyword list in
category declaration order, then `[...URGENT_KEYWORDS, ...HIGH_KEYWORDS]`. -/
def scanKeywords : List (List Char) :=
  (categoriesAll.map CATEGORY_KEYWORDS).flatten ++ URGENT_KEYWORDS ++ HIGH_KEYWORDS

/-- The accumulation loop of `extractKeywords`:
`if (processed.includes(kw) && !found.includes(kw)) found.push(kw)`. -/
def collectKeywords (processed : List Char) :
    List (List Char) → List (List Char) → List (List Char)
  | [], found => found
  | kw :: rest, found =>
    collectKeywords processed rest
      (if containsSub kw processed && !found.contains kw then found ++ [kw]
       else found)

/-- `extractKeywords` from ai-engine.ts: collect matches in scan order,
first occurrence only, then `slice(0, 10)`. -/
def extractKeywords (text : List Char) : List (List Char) :=
  (collectKeywords (preprocessText text) scanKeywords []).take 10

example : extractKeywords (str "water leak urgent") =
    [str "water", str "leak", str "urgent"] := by decide

-- ─── Full classification ──────────────────────────────────────────────────────

/-- The department records passed to `classifyComplaint`
(`{ id, categories }`; other fields are unused by the engine). -/
structure Department where
  id : List Char
  categories : List Category
  deriving DecidableEq, Repr

/-- `AIClassificationResult` from types/index.ts (`suggestedDepartmentId?`
is an optional field). -/
structure AIClassificationResult where
  category : Category
  confidence : ℚ
  priority : Priority
  keywords : List (List Char)
  suggestedDepartmentId : Option (List Char)
  deriving DecidableEq, Repr

/-- `classifyComplaint` from ai-engine.ts. The template literal
multiplies out to `title ++ " " ++ description`; `departments.find`
returns the first department whose `categories` array `includes` the
resolved category. -/
def classifyComplaint (title description : List Char)
    (departments : List Department) : AIClassificationResult :=
  let fullText := title ++ ' ' :: description
  let rc := classifyCategory fullText
  { category := rc.1
    confidence := rc.2
    priority := determinePriority fullText rc.1
    keywords := extractKeywords fullText
    suggestedDepartmentId :=
      (departments.find? fun d => decide (rc.1 ∈ d.categories)).map Department.id }

-- ─── SLA helpers (src/lib/utils.ts) ───────────────────────────────────────────

/-- The SLA status union type `'ok' | 'warning' | 'breached'`. -/
inductive SLAStatus where
  | ok | warning | breached
  deriving DecidableEq, Repr

/-- Milliseconds in one hour. -/
def msPerHour : Int := 3600000

/-- `calculateSLADeadline` from utils.ts: timestamps are epoch
milliseconds, and `deadline.setHours(deadline.getHours() + slaHours)`
adds exactly `slaHours` hours (the model assumes integer `slaHours` and a
fixed-offset timezone, so the local-time normalization is exact hour
arithmetic). -/
def calculateSLADeadline (createdAt : Int) (slaHours : Int) : Int :=
  createdAt + slaHours * msPerHour

/-- `getSLAStatus` from utils.ts, with the ambient `new Date()` made an
explicit `now` argument. `hoursLeft = (deadline - now) / 3600000` is
computed exactly in `ℚ`. -/
def getSLAStatus (deadline now : Int) : SLAStatus :=
  let hoursLeft : ℚ := ((deadline - now : Int) : ℚ) / (msPerHour : ℚ)
  if hoursLeft < 0 then .breached
  else if hoursLeft < 4 then .warning
  else .ok

example : getSLAStatus 0 0 = .warning := by norm_num [getSLAStatus]
example : getSLAStatus 0 1000 = .breached := by norm_num [getSLAStatus, msPerHour]
example : getSLAStatus (4 * 3600000) 0 = .ok := by norm_num [getSLAStatus, msPerHour]

-- ─── Pattern analysis ─────────────────────────────────────────────────────────

/-- The fields of `Complaint` consumed by `analyzePatterns`: the category
and the creation timestamp (epoch milliseconds). -/
structure Complaint where
  category : Category
  createdAt : Int
  deriving DecidableEq, Repr

/-- The trend union type `'increasing' | 'stable' | 'decreasing'`. -/
inductive Trend where
  | increasing | stable | decreasing
  deriving DecidableEq, Repr

/-- `PatternInsight` from types/index.ts. -/
structure PatternInsight where
  category : Category
  frequency : Int
  trend : Trend
  peakDays : List (List Char)
  recommendation : List Char
  deriving DecidableEq, Repr

/-- `new Date(t).toLocaleDateString('en-US', { weekday: 'long' })`,
modelled in UTC: epoch day 0 (1970-01-01) was a Thursday. -/
def weekdayName (t : Int) : List Char :=
  match ((4 + t.fdiv 86400000) % 7).toNat with
  | 0 => str "Sunday"
  | 1 => str "Monday"
  | 2 => str "Tuesday"
  | 3 => str "Wednesday"
  | 4 => str "Thursday"
  | 5 => str "Friday"
  | _ => str "Saturday"

/-- `m[k] = (m[k] ?? 0) + 1` on a JavaScript object modelled as an
association list in key-insertion order. -/
def bumpCount {α : Type} [DecidableEq α] (m : List (α × Nat)) (k : α) :
    List (α × Nat) :=
  match m with
  | [] => [(k, 1)]
  | (k', n) :: rest =>
    if k' = k then (k', n + 1) :: rest else (k', n) :: bumpCount rest k

/-- `m[k] ?? 0` on the same association-list model. -/
def lookupCount {α : Type} [DecidableEq α] (m : List (α × Nat)) (k : α) : Nat :=
  match m with
  | [] => 0
  | (k', n) :: rest => if k' = k then n else lookupCount rest k

/-- Update of the nested `categoryByDay` object: bump day `day` inside
the per-category day map, inserting the category on first sight. -/
def bumpDay (m : List (Category × List (List Char × Nat))) (cat : Category)
    (day : List Char) : List (Category × List (List Char × Nat)) :=
  match m with
  | [] => [(cat, [(day, 1)])]
  | (c, dm) :: rest =>
    if c = cat then (c, bumpCount dm day) :: rest
    else (c, dm) :: bumpDay rest cat day

/-- `categoryByDay[category] ?? {}`. -/
def lookupDays (m : List (Category × List (List Char × Nat)))
    (cat : Category) : List (List Char × Nat) :=
  ((m.find? fun e => decide (e.1 = cat)).map Prod.snd).getD []

/-- Stable insertion of `x` into a list sorted descending by `f`. -/
def insertDescBy {α β : Type} [LinearOrder β] (f : α → β) (x : α) :
    List α → List α
  | [] => [x]
  | y :: ys => if f x > f y then x :: y :: ys else y :: insertDescBy f x ys

/-- JavaScript's stable `sort((a, b) => f(b) - f(a))` (descending by `f`)
as a stable insertion sort. -/
def sortDescBy {α β : Type} [LinearOrder β] (f : α → β) : List α → List α
  | [] => []
  | x :: xs => insertDescBy f x (sortDescBy f xs)

/-- The display name of a category interpolated into the recommendation
template literals. -/
def categoryName : Category → List Char
  | .water => str "water"
  | .electrical => str "electrical"
  | .internet => str "internet"
  | .infrastructure => str "infrastructure"
  | .sanitation => str "sanitation"
  | .security => str "security"
  | .maintenance => str "maintenance"
  | .other => str "other"

/-- The recommendation text chosen by `analyzePatterns`. -/
def recommendationFor (cat : Category) (frequency : Int) : List Char :=
  if frequency > 30 then
    str "High volume of " ++ categoryName cat
      ++ str " complaints. Consider preventive maintenance schedule."
  else if frequency > 15 then
    str "Moderate " ++ categoryName cat
      ++ str " issues. Review infrastructure condition."
  else
    categoryName cat ++ str " complaints are within normal range."

/-- The body of the insights loop of `analyzePatterns`: one
`PatternInsight` from one `categoryCount` entry. -/
def insightFor (categoryByDay : List (Category × List (List Char × Nat)))
    (total : Nat) (e : Category × Nat) : PatternInsight :=
  let dayMap := lookupDays categoryByDay e.1
  let peakDays := ((sortDescBy (fun d => (d.2 : Int)) dayMap).take 2).map Prod.fst
  let frequency : Int := roundJS ((e.2 : ℚ) / (total : ℚ) * 100)
  { category := e.1
    frequency := frequency
    trend :=
      if frequency > 20 then Trend.increasing
      else if frequency > 10 then Trend.stable
      else Trend.decreasing
    peakDays := peakDays
    recommendation := recommendationFor e.1 frequency }

/-- `analyzePatterns` from ai-engine.ts. The single loop that fills both
`categoryCount` and `categoryByDay` is split into two folds over the same
complaint list; `total = complaints.length || 1`. -/
def analyzePatterns (complaints : List Complaint) : List PatternInsight :=
  let categoryCount :=
    complaints.foldl (fun m c => bumpCount m c.category) []
  let categoryByDay :=
    complaints.foldl (fun m c => bumpDay m c.category (weekdayName c.createdAt)) []
  let total : Nat := if complaints.length = 0 then 1 else complaints.length
  sortDescBy (fun i => i.frequency)
    (categoryCount.map (insightFor categoryByDay total))

-- ─── Lemmas: the substring test ───────────────────────────────────────────────

theorem containsSub_infix_iff (needle haystack : List Char) :
    containsSub needle haystack = true ↔ needle <:+: haystack := by
  induction haystack with
  | nil =>
    simp [containsSub, List.isEmpty_iff, List.infix_nil]
  | cons c rest ih =>
    simp [containsSub, ih, List.infix_cons_iff, List.isPrefixOf_iff_prefix]

theorem containsSub_trans {a b c : List Char}
    (hab : containsSub a b = true) (hbc : containsSub b c = true) :
    containsSub a c = true := by
  rw [containsSub_infix_iff] at *
  exact hab.trans hbc

-- ─── Lemmas: preprocessing preserves clean substrings ─────────────────────────

/-- Mapping a character function that fixes every character of `w`
preserves occurrences of `w`. -/
theorem infix_map_of_fixed {w l : List Char} {f : Char → Char}
    (hw : ∀ c ∈ w, f c = c) (h : w <:+: l) : w <:+: l.map f := by
  obtain ⟨s, t, rfl⟩ := h
  refine ⟨s.map f, t.map f, ?_⟩
  simp [List.map_append, List.map_congr_left hw]

/-- Dropping leading whitespace preserves occurrences of a nonempty
whitespace-free word. -/
theorem infix_dropWhile_space {w : List Char} (hne : w ≠ [])
    (hw : ∀ c ∈ w, isSpaceJS c = false) :
    ∀ {l : List Char}, w <:+: l → w <:+: l.dropWhile isSpaceJS := by
  intro l h
  induction l with
  | nil => simpa using h
  | cons c rest ih =>
    by_cases hc : isSpaceJS c
    · rw [List.dropWhile_cons_of_pos hc]
      rcases List.infix_cons_iff.mp h with hpre | hinf
      · exfalso
        rcases w with _ | ⟨w0, wrest⟩
        · exact hne rfl
        · obtain ⟨rfl, -⟩ := List.cons_prefix_cons.mp hpre
          have h0 := hw w0 (List.mem_cons_self w0 wrest)
          simp_all
      · exact ih hinf
    · rwa [List.dropWhile_cons_of_neg hc]

/-- `trim` preserves occurrences of a nonempty whitespace-free word. -/
theorem infix_trimJS {w l : List Char} (hne : w ≠ [])
    (hw : ∀ c ∈ w, isSpaceJS c = false) (h : w <:+: l) : w <:+: trimJS l := by
  unfold trimJS
  have h1 : w <:+: l.dropWhile isSpaceJS := infix_dropWhile_space hne hw h
  have h2 : w.reverse <:+: (l.dropWhile isSpaceJS).reverse :=
    List.reverse_infix.mpr h1
  have hne' : w.reverse ≠ [] := by simpa using hne
  have hw' : ∀ c ∈ w.reverse, isSpaceJS c = false := by
    intro c hc; exact hw c (List.mem_reverse.mp hc)
  have h3 := infix_dropWhile_space hne' hw' h2
  calc w = w.reverse.reverse := by simp
    _ <:+: ((l.dropWhile isSpaceJS).reverse.dropWhile isSpaceJS).reverse :=
        List.reverse_infix.mpr h3

/-- A nonempty word made of kept, whitespace-free characters survives
`preprocessText` of any text it occurs in after case folding. -/
theorem infix_preprocess_of_clean {w text : List Char} (hne : w ≠ [])
    (hkeep : ∀ c ∈ w, keepChar c = true)
    (hsp : ∀ c ∈ w, isSpaceJS c = false)
    (h : w <:+: toLowerStr text) : w <:+: preprocessText text := by
  unfold preprocessText
  refine infix_trimJS hne hsp ?_
  refine infix_map_of_fixed ?_ h
  intro c hc
  simp [sanitizeChar, hkeep c hc]

-- ─── Priority determination: theorems ─────────────────────────────────────────

/-- Helper: once the urgent keyword `"urgent"` occurs in the preprocessed
text the urgent branch fires, whatever the category. -/
theorem urgent_keyword_fires (text : List Char) (cat : Category)
    (h : containsSub (str "urgent") (preprocessText text) = true) :
    determinePriority text cat = Priority.urgent := by
  have hany : anyKeyword URGENT_KEYWORDS (preprocessText text) = true :=
    List.any_eq_true.mpr ⟨str "urgent", by decide, h⟩
  simp [determinePriority, hany]

/-- C1: `determinePriority` checks urgent, then high, then low keywords,
then falls back to the per-category default table
(electrical/water/security → high; infrastructure/internet/sanitation →
normal; maintenance → low; unmapped, including other → normal); and any
text containing `"urgent"` after case-folding yields `urgent` regardless
of category. -/
theorem determinePriority_precedence (text : List Char) (cat : Category) :
    determinePriority text cat =
      (if anyKeyword URGENT_KEYWORDS (preprocessText text) then Priority.urgent
       else if anyKeyword HIGH_KEYWORDS (preprocessText text) then Priority.high
       else if anyKeyword LOW_KEYWORDS (preprocessText text) then Priority.low
       else categoryDefault cat)
    ∧ categoryDefault Category.electrical = Priority.high
    ∧ categoryDefault Category.water = Priority.high
    ∧ categoryDefault Category.security = Priority.high
    ∧ categoryDefault Category.infrastructure = Priority.normal
    ∧ categoryDefault Category.internet = Priority.normal
    ∧ categoryDefault Category.sanitation = Priority.normal
    ∧ categoryDefault Category.maintenance = Priority.low
    ∧ categoryDefault Category.other = Priority.normal
    ∧ (containsSub (str "urgent") (toLowerStr text) = true →
        determinePriority text cat = Priority.urgent) := by
  refine ⟨rfl, rfl, rfl, rfl, rfl, rfl, rfl, rfl, rfl, ?_⟩
  intro h
  have hinf : str "urgent" <:+: toLowerStr text :=
    (containsSub_infix_iff _ _).mp h
  have hp : str "urgent" <:+: preprocessText text :=
    infix_preprocess_of_clean (by decide) (by decide) (by decide) hinf
  exact urgent_keyword_fires text cat ((containsSub_infix_iff _ _).mpr hp)

/-- C1 witness: a concrete upper-case text with a distracting low keyword
still classifies as urgent under category `maintenance`. -/
theorem determinePriority_precedence_spot :
    determinePriority (str "Small issue but URGENT!") Category.maintenance
      = Priority.urgent :=
  (determinePriority_precedence (str "Small issue but URGENT!")
    Category.maintenance).2.2.2.2.2.2.2.2.2 (by decide)

/-- C10: a text containing `"not urgent"` (a low keyword) still comes out
`urgent`, because the urgent scan runs first and `"urgent"` is a
substring of `"not urgent"`. -/
theorem notUrgent_still_urgent (text : List Char) (cat : Category)
    (h : containsSub (str "not urgent") (preprocessText text) = true) :
    determinePriority text cat = Priority.urgent := by
  refine urgent_keyword_fires text cat (containsSub_trans ?_ h)
  decide

/-- C10 witness: the concrete text "this is not urgent" is classified
urgent, not low. -/
theorem notUrgent_still_urgent_spot :
    determinePriority (str "this is not urgent") Category.water
      = Priority.urgent :=
  notUrgent_still_urgent (str "this is not urgent") Category.water (by decide)

-- ─── Category classification: theorems ────────────────────────────────────────

/-- `firstMax e l` is an element of `e :: l`, every element strictly
before it scores strictly less, and nothing in `e :: l` scores more:
exactly the head of JavaScript's stable descending sort. -/
theorem firstMax_split (l : List (Category × Nat)) :
    ∀ e : Category × Nat, ∃ pre suf,
      e :: l = pre ++ firstMax e l :: suf
      ∧ (∀ x ∈ pre, x.2 < (firstMax e l).2)
      ∧ (∀ x ∈ e :: l, x.2 ≤ (firstMax e l).2) := by
  induction l with
  | nil =>
    intro e
    exact ⟨[], [], rfl, by simp, by simp [firstMax]⟩
  | cons y ys ih =>
    intro e
    rw [firstMax]
    by_cases hy : y.2 > e.2
    · rw [if_pos hy]
      obtain ⟨pre, suf, heq, hpre, hall⟩ := ih y
      have hyle : y.2 ≤ (firstMax y ys).2 := hall y (by simp)
      refine ⟨e :: pre, suf, ?_, ?_, ?_⟩
      · rw [List.cons_append, ← heq]
      · intro x hx
        rcases List.mem_cons.mp hx with rfl | hx
        · exact lt_of_lt_of_le hy hyle
        · exact hpre x hx
      · intro x hx
        rcases List.mem_cons.mp hx with rfl | hx
        · exact le_of_lt (lt_of_lt_of_le hy hyle)
        · exact hall x hx
    · rw [if_neg hy]
      have hy' : y.2 ≤ e.2 := le_of_not_lt hy
      obtain ⟨pre, suf, heq, hpre, hall⟩ := ih e
      have hbound : ∀ x, x ∈ e :: y :: ys → x.2 ≤ (firstMax e ys).2 := by
        intro x hx
        rcases List.mem_cons.mp hx with rfl | hx
        · exact hall x (List.mem_cons_self x ys)
        · rcases List.mem_cons.mp hx with rfl | hx
          · exact le_trans hy' (hall e (List.mem_cons_self e ys))
          · exact hall x (List.mem_cons_of_mem e hx)
      cases pre with
      | nil =>
        simp only [List.nil_append] at heq
        have he : e = firstMax e ys := ((List.cons.injEq _ _ _ _).mp heq).1
        refine ⟨[], y :: ys, ?_, ?_, hbound⟩
        · rw [List.nil_append, ← he]
        · intro x hx; simp at hx
      | cons p ps =>
        simp only [List.cons_append] at heq
        have hp : e = p := ((List.cons.injEq _ _ _ _).mp heq).1
        have hys : ys = ps ++ firstMax e ys :: suf :=
          ((List.cons.injEq _ _ _ _).mp heq).2
        have hep : e.2 < (firstMax e ys).2 := by
          have h2 := hpre p (List.mem_cons_self p ps)
          rwa [← hp] at h2
        refine ⟨e :: y :: ps, suf, ?_, ?_, hbound⟩
        · show e :: y :: ys = e :: y :: (ps ++ firstMax e ys :: suf)
          rw [← hys]
        · intro x hx
          rcases List.mem_cons.mp hx with rfl | hx
          · exact hep
          · rcases List.mem_cons.mp hx with rfl | hx
            · exact lt_of_le_of_lt hy' hep
            · exact hpre x (List.mem_cons_of_mem p hx)

/-- The seven scored categories in declaration order, the winner's
position and score bounds, and the confidence formula, for any text with
a nonzero total score. -/
theorem classifyCategory_nonzero_aux (text : List Char)
    (h : totalScore text ≠ 0) :
    ∃ pre suf, scoringCategories = pre ++ (classifyCategory text).1 :: suf
      ∧ (∀ c ∈ pre, scoreCategory text c
          < scoreCategory text (classifyCategory text).1)
      ∧ (∀ c ∈ scoringCategories, scoreCategory text c
          ≤ scoreCategory text (classifyCategory text).1)
      ∧ (classifyCategory text).2 =
          round2 (min ((scoreCategory text (classifyCategory text).1 : ℚ)
            / max ((totalScore text : ℚ) * (4/5)) 1) 1) := by
  have hsc : scoringCategories =
      Category.water :: [Category.electrical, Category.internet,
        Category.infrastructure, Category.sanitation, Category.security,
        Category.maintenance] := by decide
  have hsl : scoresList text =
      (Category.water, scoreCategory text Category.water) ::
        [Category.electrical, Category.internet, Category.infrastructure,
         Category.sanitation, Category.security,
         Category.maintenance].map (fun c => (c, scoreCategory text c)) := by
    rw [scoresList, hsc]; rfl
  set e0 : Category × Nat := (Category.water, scoreCategory text Category.water)
  set rest0 := [Category.electrical, Category.internet,
    Category.infrastructure, Category.sanitation, Category.security,
    Category.maintenance].map (fun c => (c, scoreCategory text c)) with hrest0
  have hcc : classifyCategory text =
      ((firstMax e0 rest0).1,
        round2 (min (((firstMax e0 rest0).2 : ℚ)
          / max ((totalScore text : ℚ) * (4/5)) 1) 1)) := by
    rw [classifyCategory, if_neg h, hsl]
  obtain ⟨pre, suf, heq, hpre, hall⟩ := firstMax_split rest0 e0
  have hdec : scoresList text = pre ++ firstMax e0 rest0 :: suf := by
    rw [hsl, heq]
  have hmap : (scoringCategories.map fun c => (c, scoreCategory text c))
      = pre ++ firstMax e0 rest0 :: suf := hdec
  obtain ⟨lp, lrest, hlsplit, hlp, hlrest⟩ :=
    List.map_eq_append_iff.mp hmap
  obtain ⟨a, ls, hrest, ha, hls⟩ := List.map_eq_cons_iff.mp hlrest
  have htop1 : (firstMax e0 rest0).1 = a := by rw [← ha]
  have htop2 : (firstMax e0 rest0).2 = scoreCategory text a := by rw [← ha]
  have hfst : (classifyCategory text).1 = a := by rw [hcc, htop1]
  refine ⟨lp, ls, ?_, ?_, ?_, ?_⟩
  · rw [hlsplit, hrest, hfst]
  · intro c hc
    rw [hfst]
    have hm : (c, scoreCategory text c) ∈ pre := by
      rw [← hlp]; exact List.mem_map_of_mem _ hc
    have hlt := hpre _ hm
    rwa [htop2] at hlt
  · intro c hc
    rw [hfst]
    have hmem : (c, scoreCategory text c) ∈ scoresList text := by
      rw [scoresList]; exact List.mem_map_of_mem _ hc
    rw [hsl] at hmem
    have hle := hall _ hmem
    rwa [htop2] at hle
  · rw [hfst, hcc, htop2]

/-- C2: with a nonzero total score, `classifyCategory` returns the first
category attaining the strictly highest score, ties resolved by the fixed
declaration order water, electrical, internet, infrastructure,
sanitation, security, maintenance. -/
theorem classifyCategory_first_highest (text : List Char)
    (h : totalScore text ≠ 0) :
    scoringCategories = [Category.water, Category.electrical,
      Category.internet, Category.infrastructure, Category.sanitation,
      Category.security, Category.maintenance]
    ∧ ∃ pre suf, scoringCategories = pre ++ (classifyCategory text).1 :: suf
      ∧ (∀ c ∈ pre, scoreCategory text c
          < scoreCategory text (classifyCategory text).1)
      ∧ (∀ c ∈ scoringCategories, scoreCategory text c
          ≤ scoreCategory text (classifyCategory text).1) := by
  obtain ⟨pre, suf, hsplit, hpre, hall, -⟩ := classifyCategory_nonzero_aux text h
  exact ⟨by decide, pre, suf, hsplit, hpre, hall⟩

/-- C2 witness: for the text "water leak" the winner is `water`, at the
head of the declaration order. -/
theorem classifyCategory_first_highest_spot :
    scoringCategories = [Category.water, Category.electrical,
      Category.internet, Category.infrastructure, Category.sanitation,
      Category.security, Category.maintenance]
    ∧ ∃ pre suf, scoringCategories
        = pre ++ (classifyCategory (str "water leak")).1 :: suf
      ∧ (∀ c ∈ pre, scoreCategory (str "water leak") c
          < scoreCategory (str "water leak") (classifyCategory (str "water leak")).1)
      ∧ (∀ c ∈ scoringCategories, scoreCategory (str "water leak") c
          ≤ scoreCategory (str "water leak") (classifyCategory (str "water leak")).1) :=
  classifyCategory_first_highest (str "water leak") (by decide)

/-- Helper: `round2` of a rational in `[0, 1]` stays in `[0, 1]`. -/
theorem round2_mem_unit {q : ℚ} (h0 : 0 ≤ q) (h1 : q ≤ 1) :
    0 ≤ round2 q ∧ round2 q ≤ 1 := by
  unfold round2 roundJS
  constructor
  · apply div_nonneg _ (by norm_num)
    have : (0 : ℤ) ≤ Int.floor (q * 100 + 1/2) := by
      apply Int.le_floor.mpr
      push_cast
      nlinarith
    exact_mod_cast this
  · rw [div_le_one (by norm_num : (0:ℚ) < 100)]
    have hle : Int.floor (q * 100 + 1/2) ≤ Int.floor ((201 : ℚ)/2) :=
      Int.floor_le_floor (by nlinarith)
    have h201 : Int.floor ((201 : ℚ)/2) = 100 := by
      rw [Int.floor_eq_iff]
      norm_num
    rw [h201] at hle
    exact_mod_cast hle

/-- C3: the confidence of `classifyCategory` is always within `[0, 1]`;
the total score is the sum of the per-category scores; and when that
total is nonzero the confidence is exactly
`min(topScore / max(total * 0.8, 1), 1)` rounded to two decimals, with
`topScore` the winning category's score. -/
theorem classifyCategory_confidence (text : List Char) :
    0 ≤ (classifyCategory text).2 ∧ (classifyCategory text).2 ≤ 1
    ∧ totalScore text = (scoringCategories.map (scoreCategory text)).sum
    ∧ (totalScore text ≠ 0 →
        (classifyCategory text).2 =
          round2 (min ((scoreCategory text (classifyCategory text).1 : ℚ)
            / max ((totalScore text : ℚ) * (4/5)) 1) 1)) := by
  have hsum : totalScore text
      = (scoringCategories.map (scoreCategory text)).sum := by
    rw [totalScore, scoresList, List.map_map]
    rfl
  by_cases h : totalScore text = 0
  · have hcc : classifyCategory text = (Category.other, 3/10) := by
      rw [classifyCategory, if_pos h]
    refine ⟨?_, ?_, hsum, fun hn => absurd h hn⟩ <;> rw [hcc] <;> norm_num
  · obtain ⟨-, -, -, -, -, hconf⟩ := classifyCategory_nonzero_aux text h
    have hx0 : (0:ℚ) ≤ (scoreCategory text (classifyCategory text).1 : ℚ)
        / max ((totalScore text : ℚ) * (4/5)) 1 := by
      apply div_nonneg (Nat.cast_nonneg _)
      exact le_trans zero_le_one (le_max_right _ _)
    have hq0 : (0:ℚ) ≤ min ((scoreCategory text (classifyCategory text).1 : ℚ)
        / max ((totalScore text : ℚ) * (4/5)) 1) 1 := le_min hx0 zero_le_one
    have hq1 : min ((scoreCategory text (classifyCategory text).1 : ℚ)
        / max ((totalScore text : ℚ) * (4/5)) 1) 1 ≤ 1 := min_le_right _ _
    obtain ⟨hr0, hr1⟩ := round2_mem_unit hq0 hq1
    rw [hconf]
    exact ⟨hr0, hr1, hsum, fun _ => rfl⟩

/-- C3 witness: for the text "water" (score 1, total 1) the confidence is
exactly the rounded formula value. -/
theorem classifyCategory_confidence_spot :
    (classifyCategory (str "water")).2 =
      round2 (min ((scoreCategory (str "water")
          (classifyCategory (str "water")).1 : ℚ)
        / max ((totalScore (str "water") : ℚ) * (4/5)) 1) 1) :=
  (classifyCategory_confidence (str "water")).2.2.2 (by decide)

/-- C4: with a zero total keyword score `classifyCategory` falls back to
category `other` with confidence exactly 0.3, and the fully empty call
`classifyComplaint("", "", [])` yields category `other`, confidence 0.3,
priority `normal`, no keywords and no suggested department. -/
theorem classifyCategory_zero_fallback (text : List Char)
    (h : totalScore text = 0) :
    classifyCategory text = (Category.other, 3/10)
    ∧ classifyComplaint (str "") (str "") [] =
        { category := Category.other
          confidence := 3/10
          priority := Priority.normal
          keywords := []
          suggestedDepartmentId := none } := by
  refine ⟨by rw [classifyCategory, if_pos h], ?_⟩
  have h2 : totalScore (str "" ++ ' ' :: str "") = 0 := by decide
  have hcc : classifyCategory (str "" ++ ' ' :: str "") =
      (Category.other, 3/10) := by
    rw [classifyCategory, if_pos h2]
  have hp : determinePriority (str "" ++ ' ' :: str "") Category.other
      = Priority.normal := by decide
  have hk : extractKeywords (str "" ++ ' ' :: str "") = [] := by decide
  simp only [classifyComplaint, hcc, hp, hk]
  rfl

/-- C4 witness: the empty text has total score zero and classifies as
`other` with confidence 0.3. -/
theorem classifyCategory_zero_fallback_spot :
    classifyCategory (str "") = (Category.other, 3/10)
    ∧ classifyComplaint (str "") (str "") [] =
        { category := Category.other
          confidence := 3/10
          priority := Priority.normal
          keywords := []
          suggestedDepartmentId := none } :=
  classifyCategory_zero_fallback (str "") (by decide)

-- ─── SLA: theorems ────────────────────────────────────────────────────────────

/-- Helper: `getSLAStatus` as a pure integer-millisecond comparison. -/
theorem getSLAStatus_eq (d n : Int) :
    getSLAStatus d n =
      if d < n then SLAStatus.breached
      else if d - n < 4 * msPerHour then SLAStatus.warning
      else SLAStatus.ok := by
  have hM : (0:ℚ) < (msPerHour : ℚ) := by norm_num [msPerHour]
  have h1 : ((d - n : Int) : ℚ) / (msPerHour : ℚ) < 0 ↔ d < n := by
    rw [div_lt_iff₀ hM, zero_mul]
    constructor
    · intro hlt
      have : (d - n : Int) < 0 := by exact_mod_cast hlt
      omega
    · intro hlt
      have : (d - n : Int) < 0 := by omega
      exact_mod_cast this
  have h2 : ((d - n : Int) : ℚ) / (msPerHour : ℚ) < 4 ↔
      d - n < 4 * msPerHour := by
    rw [div_lt_iff₀ hM]
    have hc : (4 : ℚ) * (msPerHour : ℚ) = ((4 * msPerHour : Int) : ℚ) := by
      push_cast
      ring
    rw [hc]
    exact_mod_cast Iff.rfl
  rw [getSLAStatus]
  simp only [h1, h2]

/-- C5: `getSLAStatus` is `breached` exactly when now is strictly past
the deadline, `warning` exactly when not breached and strictly less than
4 hours remain, `ok` otherwise; at the deadline itself it is `warning`,
one second past it is `breached`, and at exactly 4 hours remaining it is
`ok`. -/
theorem getSLAStatus_boundaries (deadline now : Int) :
    (getSLAStatus deadline now = SLAStatus.breached ↔ deadline < now)
    ∧ (getSLAStatus deadline now = SLAStatus.warning
        ↔ now ≤ deadline ∧ deadline - now < 4 * msPerHour)
    ∧ (getSLAStatus deadline now = SLAStatus.ok
        ↔ 4 * msPerHour ≤ deadline - now)
    ∧ getSLAStatus deadline deadline = SLAStatus.warning
    ∧ getSLAStatus deadline (deadline + 1000) = SLAStatus.breached
    ∧ getSLAStatus (now + 4 * msPerHour) now = SLAStatus.ok := by
  have hlast : getSLAStatus (now + 4 * msPerHour) now = SLAStatus.ok := by
    rw [getSLAStatus_eq]
    rw [if_neg (by simp only [msPerHour]; omega),
      if_neg (by simp only [msPerHour]; omega)]
  refine ⟨?_, ?_, ?_, ?_, ?_, hlast⟩ <;> rw [getSLAStatus_eq]
  · constructor
    · intro hres
      by_contra hcon
      rw [if_neg hcon] at hres
      by_cases hw : deadline - now < 4 * msPerHour <;>
        simp [hw] at hres
    · intro hlt
      rw [if_pos hlt]
  · constructor
    · intro hres
      by_cases hb : deadline < now
      · rw [if_pos hb] at hres; exact absurd hres (by simp)
      · rw [if_neg hb] at hres
        by_cases hw : deadline - now < 4 * msPerHour
        · exact ⟨by omega, hw⟩
        · rw [if_neg hw] at hres; exact absurd hres (by simp)
    · rintro ⟨hle, hw⟩
      rw [if_neg (by omega), if_pos hw]
  · constructor
    · intro hres
      by_cases hb : deadline < now
      · rw [if_pos hb] at hres; exact absurd hres (by simp)
      · rw [if_neg hb] at hres
        by_cases hw : deadline - now < 4 * msPerHour
        · rw [if_pos hw] at hres; exact absurd hres (by simp)
        · omega
    · intro hge
      rw [if_neg (by simp [msPerHour] at hge ⊢; omega),
        if_neg (by omega)]
  · rw [if_neg (by omega), if_pos (by simp [msPerHour])]
  · rw [if_pos (by omega)]

/-- C7: the SLA deadline is exactly the creation time plus `slaHours`
hours; zero or negative `slaHours` makes the deadline fall at or before
creation (already due, no error); and five hours before the computed
deadline the status is `ok` while three hours before it is `warning`. -/
theorem calculateSLADeadline_spec (createdAt slaHours : Int) :
    calculateSLADeadline createdAt slaHours = createdAt + slaHours * msPerHour
    ∧ (slaHours ≤ 0 → calculateSLADeadline createdAt slaHours ≤ createdAt)
    ∧ getSLAStatus (calculateSLADeadline createdAt slaHours)
        (calculateSLADeadline createdAt slaHours - 5 * msPerHour)
        = SLAStatus.ok
    ∧ getSLAStatus (calculateSLADeadline createdAt slaHours)
        (calculateSLADeadline createdAt slaHours - 3 * msPerHour)
        = SLAStatus.warning := by
  refine ⟨rfl, ?_, ?_, ?_⟩
  · intro hle
    rw [calculateSLADeadline]
    have : slaHours * msPerHour ≤ 0 :=
      mul_nonpos_iff.mpr (Or.inr ⟨hle, by norm_num [msPerHour]⟩)
    omega
  · rw [getSLAStatus_eq,
      if_neg (by simp only [msPerHour]; omega),
      if_neg (by simp only [msPerHour]; omega)]
  · rw [getSLAStatus_eq,
      if_neg (by simp only [msPerHour]; omega),
      if_pos (by simp only [msPerHour]; omega)]

/-- C7 witness: with `slaHours = -2` the deadline of a complaint created
at epoch 0 is already due. -/
theorem calculateSLADeadline_spec_spot :
    calculateSLADeadline 0 (-2) ≤ 0 :=
  (calculateSLADeadline_spec 0 (-2)).2.1 (by decide)

-- ─── Keyword extraction: theorems ─────────────────────────────────────────────

/-- First-occurrence deduplication with an accumulator of already-seen
keywords. -/
def dedupFirstAux (seen : List (List Char)) : List (List Char) → List (List Char)
  | [] => []
  | x :: xs =>
    if seen.contains x then dedupFirstAux seen xs
    else x :: dedupFirstAux (seen ++ [x]) xs

/-- The matched keywords in scan order, each kept at its first
occurrence only. -/
def scanMatches (text : List Char) : List (List Char) :=
  dedupFirstAux [] (scanKeywords.filter fun kw => containsSub kw (preprocessText text))

theorem contains_iff_memL {l : List (List Char)} {x : List Char} :
    l.contains x = true ↔ x ∈ l := List.elem_iff

/-- The `extractKeywords` loop equals first-occurrence deduplication of
the filtered scan list, appended to what was already found. -/
theorem collectKeywords_eq (p : List Char) :
    ∀ (kws found : List (List Char)),
      collectKeywords p kws found
        = found ++ dedupFirstAux found (kws.filter fun kw => containsSub kw p) := by
  intro kws
  induction kws with
  | nil =>
    intro found
    simp [collectKeywords, dedupFirstAux]
  | cons kw rest ih =>
    intro found
    rw [collectKeywords]
    by_cases hm : containsSub kw p = true
    · by_cases hf : found.contains kw = true
      · have hfm : kw ∈ found := contains_iff_memL.mp hf
        simp [List.filter_cons, hm, hf, hfm, dedupFirstAux, ih]
      · have hfm : kw ∉ found := fun hmem => hf (contains_iff_memL.mpr hmem)
        simp [List.filter_cons, hm, hf, hfm, dedupFirstAux, ih,
          List.append_assoc]
    · simp [List.filter_cons, hm, ih]

/-- `dedupFirstAux` returns a duplicate-free list of elements not yet
seen. -/
theorem dedupFirstAux_nodup :
    ∀ (l seen : List (List Char)),
      (dedupFirstAux seen l).Nodup
      ∧ ∀ x ∈ dedupFirstAux seen l, x ∉ seen := by
  intro l
  induction l with
  | nil =>
    intro seen
    simp [dedupFirstAux]
  | cons x xs ih =>
    intro seen
    rw [dedupFirstAux]
    by_cases hx : seen.contains x = true
    · rw [if_pos hx]; exact ih seen
    · rw [if_neg hx]
      obtain ⟨hnd, hfresh⟩ := ih (seen ++ [x])
      refine ⟨List.nodup_cons.mpr ⟨?_, hnd⟩, ?_⟩
      · intro hmem
        exact hfresh x hmem (by simp)
      · intro y hy
        rcases List.mem_cons.mp hy with rfl | hy
        · intro hmem
          exact hx (contains_iff_memL.mpr hmem)
        · intro hmem
          exact hfresh y hy (by simp [hmem])

/-- C6: `extractKeywords` returns at most 10 keywords with no
duplicates, and its output is exactly the first 10 keywords that match
the preprocessed text in scan order (all category dictionaries in
declaration order, then the urgent list, then the high list), first
occurrence kept. -/
theorem extractKeywords_spec (text : List Char) :
    (extractKeywords text).length ≤ 10
    ∧ (extractKeywords text).Nodup
    ∧ extractKeywords text = (scanMatches text).take 10 := by
  have he : extractKeywords text = (scanMatches text).take 10 := by
    rw [extractKeywords, collectKeywords_eq, scanMatches, List.nil_append]
  refine ⟨?_, ?_, he⟩
  · rw [he]; exact List.length_take_le 10 _
  · rw [he]
    exact List.Nodup.sublist (List.take_sublist 10 _)
      (dedupFirstAux_nodup _ []).1

-- ─── Department suggestion: theorems ──────────────────────────────────────────

/-- C8: the suggested department is the first department in list order
whose category set contains the resolved category (absent when none
matches), and the water/urgent scenario resolves to department "d1". -/
theorem classifyComplaint_department (title description : List Char)
    (departments : List Department) :
    (classifyComplaint title description departments).suggestedDepartmentId
      = (departments.find? fun d =>
          decide ((classifyComplaint title description departments).category
            ∈ d.categories)).map Department.id
    ∧ ((∀ d ∈ departments,
          (classifyComplaint title description departments).category
            ∉ d.categories) →
        (classifyComplaint title description departments).suggestedDepartmentId
          = none)
    ∧ (classifyComplaint (str "No water in building A")
        (str "There has been no water supply for 3 days, very urgent issue")
        [⟨str "d1", [Category.water]⟩]).category = Category.water
    ∧ (classifyComplaint (str "No water in building A")
        (str "There has been no water supply for 3 days, very urgent issue")
        [⟨str "d1", [Category.water]⟩]).priority = Priority.urgent
    ∧ (classifyComplaint (str "No water in building A")
        (str "There has been no water supply for 3 days, very urgent issue")
        [⟨str "d1", [Category.water]⟩]).suggestedDepartmentId
        = some (str "d1") := by
  have hcat : (classifyComplaint title description departments).category
      = (classifyCategory (title ++ ' ' :: description)).1 := by
    unfold classifyComplaint
    simp only []
  have hsug : (classifyComplaint title description departments).suggestedDepartmentId
      = (departments.find? fun d =>
          decide ((classifyCategory (title ++ ' ' :: description)).1
            ∈ d.categories)).map Department.id := by
    unfold classifyComplaint
    simp only []
  refine ⟨?_, ?_, by decide, by decide, by decide⟩
  · rw [hcat, hsug]
  · intro hnone
    rw [hcat] at hnone
    rw [hsug]
    have h2 : (departments.find? fun d =>
        decide ((classifyCategory (title ++ ' ' :: description)).1
          ∈ d.categories)) = none := by
      rw [List.find?_eq_none]
      intro d hd
      simpa using hnone d hd
    rw [h2]
    rfl

/-- C8 witness: with no departments supplied, no department is
suggested. -/
theorem classifyComplaint_department_spot :
    (classifyComplaint (str "a") (str "b") []).suggestedDepartmentId = none :=
  (classifyComplaint_department (str "a") (str "b") []).2.1 (by simp)

-- ─── Pattern analysis: theorems ───────────────────────────────────────────────

theorem mem_insertDescBy {α β : Type} [LinearOrder β] (f : α → β) (x : α) :
    ∀ (l : List α) (a : α), a ∈ insertDescBy f x l ↔ a = x ∨ a ∈ l := by
  intro l
  induction l with
  | nil => intro a; simp [insertDescBy]
  | cons y ys ih =>
    intro a
    rw [insertDescBy]
    by_cases hc : f x > f y
    · rw [if_pos hc]
      simp [List.mem_cons]
    · rw [if_neg hc]
      simp [List.mem_cons, ih]
      tauto

theorem mem_sortDescBy {α β : Type} [LinearOrder β] (f : α → β) :
    ∀ (l : List α) (a : α), a ∈ sortDescBy f l ↔ a ∈ l := by
  intro l
  induction l with
  | nil => intro a; simp [sortDescBy]
  | cons y ys ih =>
    intro a
    rw [sortDescBy, mem_insertDescBy]
    simp [ih]

theorem pairwise_insertDescBy {α β : Type} [LinearOrder β] (f : α → β) (x : α) :
    ∀ l : List α, l.Pairwise (fun a b => f b ≤ f a) →
      (insertDescBy f x l).Pairwise (fun a b => f b ≤ f a) := by
  intro l
  induction l with
  | nil => intro _; simp [insertDescBy]
  | cons y ys ih =>
    intro hp
    obtain ⟨hhead, htail⟩ := List.pairwise_cons.mp hp
    rw [insertDescBy]
    by_cases hc : f x > f y
    · rw [if_pos hc]
      refine List.pairwise_cons.mpr ⟨?_, hp⟩
      intro b hb
      rcases List.mem_cons.mp hb with rfl | hb
      · exact le_of_lt hc
      · exact le_trans (hhead b hb) (le_of_lt hc)
    · rw [if_neg hc]
      refine List.pairwise_cons.mpr ⟨?_, ih htail⟩
      intro b hb
      rcases (mem_insertDescBy f x ys b).mp hb with rfl | hb
      · exact le_of_not_lt hc
      · exact hhead b hb

theorem pairwise_sortDescBy {α β : Type} [LinearOrder β] (f : α → β) :
    ∀ l : List α, (sortDescBy f l).Pairwise (fun a b => f b ≤ f a) := by
  intro l
  induction l with
  | nil => simp [sortDescBy]
  | cons y ys ih => exact pairwise_insertDescBy f y _ ih

theorem lookupCount_bumpCount {α : Type} [DecidableEq α] :
    ∀ (m : List (α × Nat)) (k k' : α),
      lookupCount (bumpCount m k) k'
        = lookupCount m k' + (if k = k' then 1 else 0) := by
  intro m
  induction m with
  | nil =>
    intro k k'
    simp [bumpCount, lookupCount]
  | cons e rest ih =>
    intro k k'
    obtain ⟨a, v⟩ := e
    rw [bumpCount]
    by_cases hak : a = k
    · subst hak
      rw [if_pos rfl]
      simp only [lookupCount]
      split_ifs <;> simp
    · rw [if_neg hak]
      simp only [lookupCount]
      by_cases h1 : a = k'
      · rw [if_pos h1, if_pos h1]
        rw [if_neg (by intro hkk; exact hak (hkk ▸ h1.symm ▸ rfl))]
        simp
      · rw [if_neg h1, if_neg h1]
        exact ih k k'

theorem lookupCount_fold (l : List Complaint) :
    ∀ (m : List (Category × Nat)) (k : Category),
      lookupCount (l.foldl (fun m c => bumpCount m c.category) m) k
        = lookupCount m k + l.countP (fun c => decide (c.category = k)) := by
  induction l with
  | nil => intro m k; simp
  | cons c rest ih =>
    intro m k
    rw [List.foldl_cons, ih, List.countP_cons, lookupCount_bumpCount]
    by_cases hk : c.category = k <;> simp [hk] <;> omega

theorem keys_bumpCount {α : Type} [DecidableEq α] :
    ∀ (m : List (α × Nat)) (k : α),
      (bumpCount m k).map Prod.fst =
        if k ∈ m.map Prod.fst then m.map Prod.fst
        else m.map Prod.fst ++ [k] := by
  intro m
  induction m with
  | nil => intro k; simp [bumpCount]
  | cons e rest ih =>
    intro k
    obtain ⟨a, v⟩ := e
    rw [bumpCount]
    by_cases hak : a = k
    · subst hak
      rw [if_pos rfl]
      simp
    · rw [if_neg hak]
      simp only [List.map_cons, List.mem_cons, ih]
      by_cases hk : k ∈ rest.map Prod.fst
      · rw [if_pos hk, if_pos (Or.inr hk)]
      · rw [if_neg hk, if_neg (by rintro (h | h) <;> simp_all)]
        simp

theorem nodupKeys_bumpCount {α : Type} [DecidableEq α]
    (m : List (α × Nat)) (k : α) (h : (m.map Prod.fst).Nodup) :
    ((bumpCount m k).map Prod.fst).Nodup := by
  rw [keys_bumpCount]
  by_cases hk : k ∈ m.map Prod.fst
  · rwa [if_pos hk]
  · rw [if_neg hk]
    simp [List.nodup_append, h, hk]

theorem nodupKeys_fold (l : List Complaint) :
    ∀ m : List (Category × Nat), (m.map Prod.fst).Nodup →
      ((l.foldl (fun m c => bumpCount m c.category) m).map Prod.fst).Nodup := by
  induction l with
  | nil => intro m hm; simpa using hm
  | cons c rest ih =>
    intro m hm
    exact ih _ (nodupKeys_bumpCount m c.category hm)

theorem lookupCount_of_mem {α : Type} [DecidableEq α] :
    ∀ (m : List (α × Nat)) (k : α) (n : Nat),
      (m.map Prod.fst).Nodup → (k, n) ∈ m → lookupCount m k = n := by
  intro m
  induction m with
  | nil => intro k n _ hmem; simp at hmem
  | cons e rest ih =>
    intro k n hnd hmem
    obtain ⟨a, v⟩ := e
    obtain ⟨hhead, htail⟩ := List.pairwise_cons.mp hnd
    rcases List.mem_cons.mp hmem with heq | hmem
    · injection heq with h1 h2
      subst h1; subst h2
      simp [lookupCount]
    · rw [lookupCount]
      have hak : a ≠ k := by
        intro hak
        subst hak
        exact hhead a (List.mem_map_of_mem Prod.fst hmem) rfl
      rw [if_neg hak]
      exact ih k n htail hmem

/-- The number of complaints of category `cat`. -/
def countCat (complaints : List Complaint) (cat : Category) : Nat :=
  complaints.countP fun c => decide (c.category = cat)

/-- `analyzePatterns` with its let-bindings spelled out. -/
theorem analyzePatterns_eq (complaints : List Complaint) :
    analyzePatterns complaints =
      sortDescBy (fun i => i.frequency)
        ((complaints.foldl (fun m c => bumpCount m c.category) []).map
          (insightFor
            (complaints.foldl
              (fun m c => bumpDay m c.category (weekdayName c.createdAt)) [])
            (if complaints.length = 0 then 1 else complaints.length))) := by
  unfold analyzePatterns
  simp only []

theorem roundJS_ten_tenths : roundJS (((10:ℕ):ℚ) / ((10:ℕ):ℚ) * 100) = 100 := by
  rw [roundJS]
  have hq : ((10:ℕ):ℚ) / ((10:ℕ):ℚ) * 100 + 1/2 = 201/2 := by norm_num
  rw [hq, Int.floor_eq_iff]
  norm_num

/-- C9: over a non-empty complaint list every insight's frequency is the
rounded percentage share of its category and its trend is the pure
threshold function of that frequency; the insight list is sorted
descending by frequency; and ten water complaints on one weekday give a
single insight with frequency 100, trend increasing, and that weekday as
the only peak day. -/
theorem analyzePatterns_spec (complaints : List Complaint)
    (h : complaints ≠ []) :
    (∀ ins ∈ analyzePatterns complaints,
        ins.frequency = roundJS ((countCat complaints ins.category : ℚ)
          / (complaints.length : ℚ) * 100)
        ∧ ins.trend = (if ins.frequency > 20 then Trend.increasing
            else if ins.frequency > 10 then Trend.stable
            else Trend.decreasing))
    ∧ (analyzePatterns complaints).Pairwise
        (fun a b => b.frequency ≤ a.frequency)
    ∧ (∃ ins : PatternInsight,
        analyzePatterns
            (List.replicate 10 { category := Category.water, createdAt := 0 })
          = [ins]
        ∧ ins.frequency = 100 ∧ ins.trend = Trend.increasing
        ∧ ins.peakDays = [str "Thursday"]) := by
  have htot : (if complaints.length = 0 then 1 else complaints.length)
      = complaints.length := by
    rw [if_neg]
    simpa [List.length_eq_zero] using h
  refine ⟨?_, ?_, ?_⟩
  · intro ins hins
    rw [analyzePatterns_eq, mem_sortDescBy] at hins
    obtain ⟨e, hemem, rfl⟩ := List.mem_map.mp hins
    have hnodup : (((complaints.foldl
        (fun m c => bumpCount m c.category) []).map Prod.fst)).Nodup :=
      nodupKeys_fold complaints [] (by simp)
    have hlook := lookupCount_of_mem _ e.1 e.2 hnodup (by
      rw [Prod.mk.eta]; exact hemem)
    rw [lookupCount_fold complaints [] e.1] at hlook
    have hcount : e.2 = countCat complaints e.1 := by
      rw [countCat, ← hlook, lookupCount]
      simp
    constructor
    · simp only [insightFor, htot]
      rw [← hcount]
    · simp only [insightFor, htot]
  · rw [analyzePatterns_eq]
    exact pairwise_sortDescBy _ _
  · have hc1 : (List.replicate 10
        ({ category := Category.water, createdAt := 0 } : Complaint)).foldl
          (fun m c => bumpCount m c.category) []
        = [(Category.water, 10)] := by decide
    have hc2 : (List.replicate 10
        ({ category := Category.water, createdAt := 0 } : Complaint)).foldl
          (fun m c => bumpDay m c.category (weekdayName c.createdAt)) []
        = [(Category.water, [(str "Thursday", 10)])] := by decide
    have hlen : (List.replicate 10
        ({ category := Category.water, createdAt := 0 } : Complaint)).length
        = 10 := by simp
    refine ⟨insightFor [(Category.water, [(str "Thursday", 10)])] 10
      (Category.water, 10), ?_, ?_, ?_, ?_⟩
    · rw [analyzePatterns_eq, hc1, hc2, hlen]
      rw [if_neg (by norm_num)]
      simp [sortDescBy, insertDescBy]
    · simp only [insightFor]
      exact roundJS_ten_tenths
    · simp only [insightFor]
      rw [roundJS_ten_tenths]
      rfl
    · simp only [insightFor]
      rfl

/-- C9 witness: the theorem instantiated at the ten-water-complaint
list. -/
theorem analyzePatterns_spec_spot :
    (∀ ins ∈ analyzePatterns
        (List.replicate 10 { category := Category.water, createdAt := 0 }),
        ins.frequency = roundJS ((countCat
            (List.replicate 10 { category := Category.water, createdAt := 0 })
            ins.category : ℚ)
          / ((List.replicate 10
              ({ category := Category.water, createdAt := 0 } : Complaint)).length : ℚ)
          * 100)
        ∧ ins.trend = (if ins.frequency > 20 then Trend.increasing
            else if ins.frequency > 10 then Trend.stable
            else Trend.decreasing))
    ∧ (analyzePatterns
        (List.replicate 10 { category := Category.water, createdAt := 0 })).Pairwise
        (fun a b => b.frequency ≤ a.frequency)
    ∧ (∃ ins : PatternInsight,
        analyzePatterns
            (List.replicate 10 { category := Category.water, createdAt := 0 })
          = [ins]
        ∧ ins.frequency = 100 ∧ ins.trend = Trend.increasing
        ∧ ins.peakDays = [str "Thursday"]) :=
  analyzePatterns_spec
    (List.replicate 10 { category := Category.water, createdAt := 0 })
    (by simp)

end SmartComplaint
